import Mathlib

/-!
Verification of the casbin-mesh badger policy-store adapter
(`server/adapter/adapter.go`).

Go strings are modelled as lists of characters (`GStr`); the Go byte-level
string operations (`strings.Join`, `strings.Split`, `strings.Contains`,
`strings.HasPrefix`, `strings.TrimSpace`) are translated to functions on
`GStr` below.  The badger-backed bucket layer (`BadgerStore`, `Tx`,
`Bucket`) is not part of the sources at hand; its key layout and the
get/put/delete/exists/iterate semantics are modelled from the spec
(see the definitions marked "Modelled from the spec").  The store of one
bucket is an association list from logical keys to the decoded rule
values (the JSON value round-trips the string list exactly, so the value
is kept as the rule itself).
-/

namespace CasbinMesh

/-- A Go string, modelled as a list of characters (bytes). -/
abbrev GStr := List Char

/-- Shorthand for writing `GStr` literals. -/
def gs (s : String) : GStr := s.toList

/-- Go `strings.Join(elems, sep)`: the elements concatenated with `sep`
placed between consecutive elements. -/
def gjoin (sep : GStr) : List GStr → GStr
  | [] => []
  | [a] => a
  | a :: b :: rest => a ++ sep ++ gjoin sep (b :: rest)

/-- The fixed `"::"` separator used by the adapter's key encoding. -/
def sep2 : GStr := [':', ':']

/-- Go `strings.Split(s, "::")`: split around each leftmost
non-overlapping occurrence of the two-character separator `"::"`. -/
def splitSep : GStr → List GStr
  | [] => [[]]
  | [c] => [[c]]
  | c :: d :: rest =>
    if c = ':' ∧ d = ':' then [] :: splitSep rest
    else
      match splitSep (d :: rest) with
      | [] => [[c]]
      | h :: t => (c :: h) :: t

/-- Go `strings.Contains(s, sub)`: `sub` occurs as a contiguous substring
of `s`. -/
def gcontains (s sub : GStr) : Bool :=
  sub.isPrefixOf s ||
    match s with
    | [] => false
    | _ :: t => gcontains t sub

/-- `CasbinRule` from the source: an ordered list of rule fields,
`[ptype, field0, field1, ...]`. -/
abbrev CasbinRule := List GStr

/-- `CasbinRule.getKey` from the source: `strings.Join(rule, "::")`. -/
def CasbinRule.getKey (rule : CasbinRule) : GStr := gjoin sep2 rule

/-- `convertRule` from the source: prepend the ptype to the field list. -/
def convertRule (ptype : GStr) (line : List GStr) : CasbinRule :=
  ptype :: line

/-- A stored record of the bucket: `(logical key, decoded rule value)`. -/
abbrev Entry := GStr × CasbinRule

/-- The contents of the adapter's bucket: the records of the one
namespace, as an association list. -/
abbrev Store := List Entry

/-- Modelled from the spec (§6 "Persisted key layout"): the physical key
seen by the engine is `fixed-prefix ++ namespace ++ logical-key`.  `pfx`
stands for the engine-wide fixed prefix (`prefixPolicies` in the code),
`ns` for the bucket namespace. -/
def physKey (pfx ns k : GStr) : GStr := pfx ++ ns ++ k

/-- Modelled from the spec (§4.1): `Bucket.Exist` is a boolean presence
check on the logical key. -/
def bucketExist (s : Store) (k : GStr) : Bool :=
  s.any (fun e => e.1 == k)

/-- Modelled from the spec (§4.1): `Bucket.Delete` removes the record
with the given logical key; deleting an absent key is a no-op. -/
def bucketDelete (s : Store) (k : GStr) : Store :=
  s.filter (fun e => !(e.1 == k))

/-- Modelled from the spec (§4.1): `Bucket.Put` writes
`namespace+key → value`, overwriting an existing record in place or
appending a fresh one. -/
def bucketPut (s : Store) (k : GStr) (v : CasbinRule) : Store :=
  if bucketExist s k then s.map (fun e => if e.1 == k then (k, v) else e)
  else s ++ [(k, v)]

/-- Outcome of a Go adapter call: a normal `nil` return, an `error`
return carrying the error message, or a runtime panic. -/
inductive Res where
  | ok : Res
  | err : GStr → Res
  | panicked : GStr → Res
deriving DecidableEq, Repr

/-- Result of an adapter operation: the returned outcome together with
the bucket contents after the call (engine-level I/O failures are
outside the model). -/
structure Out where
  res : Res
  store : Store
deriving DecidableEq, Repr

/-- `adapter.RemoveFilteredPolicy` from the source.  `fieldValues` is an
`Option` because Go distinguishes the `nil` slice (a variadic call with
no values) from an explicitly passed empty slice, and the source guards
with `fieldValues == nil`.  The scan phases run inside `View` and the
matched physical keys are then deleted in a separate `Update`
transaction, exactly as in the source; engine iteration over
`ValidForPrefix` is modelled as a filter of the bucket contents on the
physical-key prefix (spec §4.1).  In the `fieldIndex > -1` branch the
source splits `k[len(namespace):]` — the physical key with only
`len(namespace)` leading bytes stripped — on `"::"` and compares the
entry at `fieldIndex+1` with `fieldValues[0]`.  With an empty non-nil
slice that index expression panics with Go's index-out-of-range
runtime error as soon as some scanned key passes the containment and
length guards; the scan result is therefore an `Option`, `none`
standing for that read-phase panic (the `View` transaction is
read-only, so the store is untouched), and only a non-empty
`fieldValues` reaches the `fieldValues[0]` comparison, rendered as
`fv.headD []`. -/
def removeFilteredPolicy (pfx ns : GStr) (store : Store) (sec ptype : GStr)
    (fieldIndex : Int) (fieldValues : Option (List GStr)) : Out :=
  if fieldValues = none then ⟨.err (gs "empty filed values"), store⟩
  else
    let fv := fieldValues.getD []
    let key := gjoin sep2 (ptype :: fv)
    let scanned : Option (List GStr) :=
      if fieldIndex = 0 then
        some ((store.filter (fun e =>
          (physKey pfx ns key).isPrefixOf (physKey pfx ns e.1))).map
          (fun e => physKey pfx ns e.1))
      else if fieldIndex > -1 then
        let scanPfx := pfx ++ ns ++ ptype
        let keyStr := gjoin sep2 fv
        if fv = [] ∧ store.any (fun e =>
            let found := physKey pfx ns e.1
            scanPfx.isPrefixOf found &&
              (gcontains found keyStr &&
                decide (fieldIndex + 1
                  < ((splitSep (found.drop ns.length)).length : Int))))
        then none
        else
          some ((store.filter (fun e =>
            let found := physKey pfx ns e.1
            scanPfx.isPrefixOf found &&
              (gcontains found keyStr &&
                (let values := splitSep (found.drop ns.length)
                 if fieldIndex + 1 < (values.length : Int) then
                   values.getD (fieldIndex + 1).toNat [] == fv.headD []
                 else false)))).map
            (fun e => physKey pfx ns e.1))
      else some []
    match scanned with
    | none =>
      ⟨.panicked (gs "runtime error: index out of range [0] with length 0"),
       store⟩
    | some matched =>
      ⟨.ok, matched.foldl
        (fun s k => s.filter (fun e => !(physKey pfx ns e.1 == k))) store⟩

/-- Events appended to the casbin model: `(sec, key, fields)` where
`sec = key[:1]` and `key` is the first comma-separated token of the
policy line.  The casbin `model.Model` is a map `sec → key → Policy`
into which rule rows are appended; the model is represented here by the
sequence of appended rows, which determines every per-key `Policy` list
and keeps the append order observable. -/
abbrev PEvent := GStr × GStr × List GStr

/-- The casbin model, as the ordered sequence of rows appended to it. -/
abbrev PModel := List PEvent

/-- Go `unicode.IsSpace` restricted to the ASCII range (the characters
relevant to the seed-policy text). -/
def goIsSpace (c : Char) : Bool :=
  c == ' ' || c == '\t' || c == '\n' || c == '\r' ||
    c == Char.ofNat 11 || c == Char.ofNat 12

/-- Go `strings.TrimSpace`: drop leading and trailing whitespace. -/
def trimSpace (s : GStr) : GStr :=
  ((s.dropWhile goIsSpace).reverse.dropWhile goIsSpace).reverse

/-- `loadCsvPolicyLine` from the source: skip blank lines and lines
starting with `#`; otherwise read the line's comma-separated tokens and
append `tokens[1:]` to `model[sec][key].Policy` with `key = tokens[0]`
and `sec = key[:1]`.  Modelled from the spec (§6 "Seed policy format"):
the `encoding/csv` reader with `TrimLeadingSpace` is modelled as
splitting the line on commas and dropping each token's leading
whitespace.  (On `key = ""` the Go `key[:1]` would panic; `List.take 1`
yields `[]` there — no line processed by the theorems hits that case.) -/
def loadCsvPolicyLine (line : GStr) (m : PModel) : PModel :=
  if line = [] || ['#'].isPrefixOf line then m
  else
    let tokens := (List.splitOn ',' line).map (fun t => t.dropWhile goIsSpace)
    let key := tokens.headD []
    m ++ [(key.take 1, key, tokens.tail)]

/-- Modelled from the spec: `persist.LoadPolicyLine` of the external
casbin library parses one policy line — skipping blank and `#` lines,
splitting on commas with leading whitespace trimmed — and appends the
rule to the model, exactly like `loadCsvPolicyLine`. -/
def loadPolicyLine (line : GStr) (m : PModel) : PModel :=
  loadCsvPolicyLine line m

/-- `loadPolicy` (lower-case helper) from the source: join the stored
rule's fields with commas and feed the line to
`persist.LoadPolicyLine`. -/
def loadPolicy (rule : CasbinRule) (m : PModel) : PModel :=
  loadPolicyLine (gjoin [','] rule) m

/-- `adapter.LoadPolicy` from the source: if the builtin (seed) policy
text is non-empty, split it on newlines and load each trimmed line;
then iterate the bucket (`ForEach`, modelled from the spec §4.1 as a
fold over the records) and load each decoded value. -/
def LoadPolicy (builtinPolicy : GStr) (store : Store) (m : PModel) : PModel :=
  let m1 := if builtinPolicy = [] then m
    else (List.splitOn '\n' builtinPolicy).foldl
      (fun acc l => loadCsvPolicyLine (trimSpace l) acc) m
  store.foldl (fun acc e => loadPolicy e.2 acc) m1

/-- `adapter.SavePolicy` from the source: always
`errors.New("not supported: must use auto-save with this adapter")`,
with no store access at all. -/
def SavePolicy (store : Store) (model : PModel) : Out :=
  ⟨.err (gs "not supported: must use auto-save with this adapter"), store⟩

/-- `adapter.UpdateFilteredPolicies` from the source: the body is
`panic("implement")`; no transaction is opened. -/
def UpdateFilteredPolicies (store : Store) (sec ptype : GStr)
    (newPolicies : List (List GStr)) (fieldIndex : Int)
    (fieldValues : Option (List GStr)) : Out :=
  ⟨.panicked (gs "implement"), store⟩

/-- `adapter.UpdatePolicy` from the source: inside one `Update`
transaction, if the old rule's encoded key exists, delete it and put
the new rule; otherwise do nothing. -/
def UpdatePolicy (store : Store) (sec ptype : GStr)
    (oldRule newPolicy : List GStr) : Out :=
  let rule := convertRule ptype oldRule
  if bucketExist store (CasbinRule.getKey rule) then
    let s1 := bucketDelete store (CasbinRule.getKey rule)
    let line := convertRule ptype newPolicy
    ⟨.ok, bucketPut s1 (CasbinRule.getKey line) line⟩
  else ⟨.ok, store⟩

/-- `adapter.UpdatePolicies` from the source: reject mismatched list
lengths with `InvalidRulesLen` before any mutation; otherwise update
each pair in order (the Go index loop over equal-length lists is the
fold over their zip). -/
def UpdatePolicies (store : Store) (sec ptype : GStr)
    (oldRules newRules : List (List GStr)) : Out :=
  if oldRules.length ≠ newRules.length then
    ⟨.err (gs "invalid rule len"), store⟩
  else
    ⟨.ok, (oldRules.zip newRules).foldl (fun s p =>
      let or := convertRule ptype p.1
      if bucketExist s (CasbinRule.getKey or) then
        let line := convertRule ptype p.2
        bucketPut (bucketDelete s (CasbinRule.getKey or))
          (CasbinRule.getKey line) line
      else s) store⟩

/-- A bucket is well-formed when every record was written by the
adapter itself: the key is the value rule's encoded key, the rule is
non-empty (`convertRule` always prepends the ptype) and no field
contains the separator character `':'`. -/
def WellFormed (store : Store) : Prop :=
  ∀ e ∈ store, e.1 = CasbinRule.getKey e.2 ∧ e.2 ≠ [] ∧ ∀ f ∈ e.2, ':' ∉ f

instance (store : Store) : Decidable (WellFormed store) :=
  List.decidableBAll _ store

/-- The rule-level matching relation actually implemented by the
`fieldIndex = 0` branch on `':'`-free fields: the filter list must
match the rule component-wise except that its last value need only be
a string prefix of the corresponding rule component (so `"subj-a"`
also matches a rule whose field is `"subj-ab"`, and a fully matched
filter also matches rules with additional trailing fields). -/
def keyPrefixMatch : List GStr → List GStr → Bool
  | [], _ => true
  | _ :: _, [] => false
  | [v], f :: _ => v.isPrefixOf f
  | v :: vs, f :: fs => v == f && keyPrefixMatch vs fs

/-- The rule-level matching relation actually implemented by the
`fieldIndex ≥ 1` branch on well-formed stores: the rule's ptype starts
with the requested ptype, the full physical key contains the joined
filter values, and the rule's field at `fieldIndex` equals the first
filter value. -/
def fieldHit (pfx ns ptype : GStr) (fieldIndex : Nat) (fv : List GStr)
    (e : Entry) : Bool :=
  ptype.isPrefixOf (e.2.headD []) &&
    gcontains (physKey pfx ns e.1) (gjoin sep2 fv) &&
    decide (fieldIndex < e.2.tail.length) &&
    (e.2.tail.getD fieldIndex [] == fv.headD [])

/-- The matching predicate C1 claims for the `fieldIndex = 0` branch,
following the spec's words: the rule's ptype equals the requested
ptype and its leading fields equal the filter values. -/
def c1ClaimMatch (ptype : GStr) (fv : List GStr) (e : Entry) : Bool :=
  (e.2.headD [] == ptype) && fv.isPrefixOf e.2.tail

/-- The matching predicate C2 claims for the `fieldIndex > 0` branch,
following the spec's words: the rule's field at position `fieldIndex`
equals the first filter value and the stored key contains the joined
filter values as a substring. -/
def c2ClaimMatch (fieldIndex : Nat) (fv : List GStr) (e : Entry) : Bool :=
  decide (fieldIndex < e.2.tail.length) &&
    (e.2.tail.getD fieldIndex [] == fv.headD []) &&
    gcontains e.1 (gjoin sep2 fv)

/-- The model row a policy line contributes, if any: `none` for blank
lines and lines starting with `#`, otherwise
`(key[:1], key, tokens[1:])` where `tokens` are the line's
comma-separated, leading-space-trimmed tokens and `key = tokens[0]`. -/
def lineEvent (line : GStr) : Option PEvent :=
  if line = [] || ['#'].isPrefixOf line then none
  else
    let tokens := (List.splitOn ',' line).map (fun t => t.dropWhile goIsSpace)
    some ((tokens.headD []).take 1, tokens.headD [], tokens.tail)

/-- The rows contributed by the inline seed-policy text: one per
newline-separated, trimmed, non-blank, non-`#` line, in text order. -/
def seedRules (builtinPolicy : GStr) : PModel :=
  (List.splitOn '\n' builtinPolicy).filterMap (fun l => lineEvent (trimSpace l))

/-- The rows contributed by the persisted bucket records: each stored
value joined with commas and re-parsed, in bucket order. -/
def bucketRules (store : Store) : PModel :=
  store.filterMap (fun e => lineEvent (gjoin [','] e.2))

/-! ### Separator lemmas -/

/-- Cutting a string at a `"::"` occurrence is unambiguous when the
parts left of the cut contain no `':'` at all. -/
theorem append_sep_inj {a b x y : GStr} (ha : ':' ∉ a) (hb : ':' ∉ b)
    (h : a ++ ':' :: ':' :: x = b ++ ':' :: ':' :: y) : a = b ∧ x = y := by
  induction a generalizing b with
  | nil =>
    cases b with
    | nil => exact ⟨rfl, by simpa using h⟩
    | cons d bs =>
      rw [List.nil_append, List.cons_append] at h
      obtain ⟨hd, -⟩ := List.cons.inj h
      exact absurd (by rw [← hd] at hb ⊢; exact List.mem_cons_self _ _) hb
  | cons c as ih =>
    cases b with
    | nil =>
      rw [List.nil_append, List.cons_append] at h
      obtain ⟨hd, -⟩ := List.cons.inj h
      exact absurd (by rw [hd]; exact List.mem_cons_self _ _) ha
    | cons d bs =>
      rw [List.cons_append, List.cons_append] at h
      obtain ⟨hd, ht⟩ := List.cons.inj h
      have ha' : ':' ∉ as := fun hm => ha (List.mem_cons_of_mem _ hm)
      have hb' : ':' ∉ bs := fun hm => hb (List.mem_cons_of_mem _ hm)
      obtain ⟨e1, e2⟩ := ih ha' hb' ht
      exact ⟨by rw [hd, e1], e2⟩

/-- `strings.Join(_, "::")` is injective on non-empty lists of
`':'`-free fields. -/
theorem gjoin_sep2_inj {r1 r2 : List GStr} (h1 : r1 ≠ []) (h2 : r2 ≠ [])
    (hf1 : ∀ f ∈ r1, ':' ∉ f) (hf2 : ∀ f ∈ r2, ':' ∉ f)
    (h : gjoin sep2 r1 = gjoin sep2 r2) : r1 = r2 := by
  induction r1 generalizing r2 with
  | nil => exact absurd rfl h1
  | cons a as ih =>
    cases r2 with
    | nil => exact absurd rfl h2
    | cons b bs =>
      cases as with
      | nil =>
        cases bs with
        | nil => simpa [gjoin] using h
        | cons b2 bs2 =>
          exfalso
          simp only [gjoin, sep2, List.append_assoc, List.cons_append,
            List.nil_append] at h
          exact hf1 a (List.mem_cons_self _ _)
            (h ▸ List.mem_append_right _ (List.mem_cons_self _ _))
      | cons a2 as2 =>
        cases bs with
        | nil =>
          exfalso
          simp only [gjoin, sep2, List.append_assoc, List.cons_append,
            List.nil_append] at h
          exact hf2 b (List.mem_cons_self _ _)
            (h.symm ▸ List.mem_append_right _ (List.mem_cons_self _ _))
        | cons b2 bs2 =>
          simp only [gjoin, sep2, List.append_assoc, List.cons_append,
            List.nil_append] at h
          obtain ⟨e1, e2⟩ := append_sep_inj
            (hf1 a (List.mem_cons_self _ _)) (hf2 b (List.mem_cons_self _ _)) h
          have etail : a2 :: as2 = b2 :: bs2 := ih (by simp) (by simp)
            (fun f hf => hf1 f (List.mem_cons_of_mem _ hf))
            (fun f hf => hf2 f (List.mem_cons_of_mem _ hf)) e2
          rw [e1, etail]

/-- One-step unfolding of `splitSep` on a string of length at least
two. -/
theorem splitSep_cons2 (c d : Char) (rest : GStr) :
    splitSep (c :: d :: rest)
      = if c = ':' ∧ d = ':' then [] :: splitSep rest
        else match splitSep (d :: rest) with
          | [] => [[c]]
          | h :: t => (c :: h) :: t := by
  rw [splitSep]

/-- Splitting a `':'`-free string on `"::"` yields the string itself. -/
theorem splitSep_colonFree : ∀ {a : GStr}, ':' ∉ a → splitSep a = [a]
  | [], _ => rfl
  | [_], _ => rfl
  | c :: d :: rest, h => by
    have hc : ¬(c = ':' ∧ d = ':') :=
      fun hand => h (by rw [hand.1]; exact List.mem_cons_self _ _)
    have htail : ':' ∉ d :: rest := fun hm => h (List.mem_cons_of_mem _ hm)
    have ih := splitSep_colonFree htail
    rw [splitSep_cons2, if_neg hc, ih]

/-- Splitting `a ++ "::" ++ r` on `"::"` for `':'`-free `a` peels off
`a` and continues with `r`. -/
theorem splitSep_append_sep : ∀ {a : GStr} (r : GStr), ':' ∉ a →
    splitSep (a ++ ':' :: ':' :: r) = a :: splitSep r
  | [], r, _ => by
    show splitSep (':' :: ':' :: r) = [] :: splitSep r
    rw [splitSep_cons2, if_pos ⟨rfl, rfl⟩]
  | [c], r, h => by
    have hc : ¬(c = ':' ∧ ':' = ':') :=
      fun hand => h (by rw [hand.1]; exact List.mem_cons_self _ _)
    show splitSep (c :: ':' :: ':' :: r) = [c] :: splitSep r
    rw [splitSep_cons2, if_neg hc, splitSep_cons2, if_pos ⟨rfl, rfl⟩]
  | c :: c2 :: a2, r, h => by
    have hc : ¬(c = ':' ∧ c2 = ':') :=
      fun hand => h (by rw [hand.1]; exact List.mem_cons_self _ _)
    have htail : ':' ∉ c2 :: a2 := fun hm => h (List.mem_cons_of_mem _ hm)
    have ih := splitSep_append_sep (a := c2 :: a2) r htail
    show splitSep (c :: (c2 :: a2 ++ ':' :: ':' :: r))
      = (c :: c2 :: a2) :: splitSep r
    rw [List.cons_append] at ih
    rw [show c :: (c2 :: a2 ++ ':' :: ':' :: r)
        = c :: c2 :: (a2 ++ ':' :: ':' :: r) from rfl,
      splitSep_cons2, if_neg hc, ih]

/-- Splitting the join of non-empty, `':'`-free fields recovers the
fields. -/
theorem splitSep_gjoin : ∀ {l : List GStr}, l ≠ [] → (∀ f ∈ l, ':' ∉ f) →
    splitSep (gjoin sep2 l) = l
  | [], h, _ => absurd rfl h
  | [a], _, hf => splitSep_colonFree (hf a (List.mem_cons_self _ _))
  | a :: b :: l2, _, hf => by
    have he : gjoin sep2 (a :: b :: l2)
        = a ++ ':' :: ':' :: gjoin sep2 (b :: l2) := by
      simp [gjoin, sep2, List.append_assoc]
    rw [he, splitSep_append_sep _ (hf a (List.mem_cons_self _ _)),
      splitSep_gjoin (by simp) (fun f hfm => hf f (List.mem_cons_of_mem _ hfm))]

/-- Splitting junk (the unstripped remainder of the physical-key
prefixing) followed by an encoded rule key: the junk fuses with the
ptype component, the fields stay intact. -/
theorem splitSep_junk_getKey {junk : GStr} {r : CasbinRule} (hj : ':' ∉ junk)
    (hr : r ≠ []) (hf : ∀ f ∈ r, ':' ∉ f) :
    splitSep (junk ++ CasbinRule.getKey r) = (junk ++ r.headD []) :: r.tail := by
  cases r with
  | nil => exact absurd rfl hr
  | cons p fs =>
    have hjp : ':' ∉ junk ++ p := fun hm =>
      (List.mem_append.1 hm).elim hj (hf p (List.mem_cons_self _ _))
    cases fs with
    | nil =>
      show splitSep (junk ++ p) = (junk ++ p) :: []
      rw [splitSep_colonFree hjp]
    | cons f fs2 =>
      have he : junk ++ CasbinRule.getKey (p :: f :: fs2)
          = (junk ++ p) ++ ':' :: ':' :: gjoin sep2 (f :: fs2) := by
        simp [CasbinRule.getKey, gjoin, sep2, List.append_assoc]
      rw [he, splitSep_append_sep _ hjp,
        splitSep_gjoin (by simp)
          (fun x hx => hf x (List.mem_cons_of_mem _ hx))]
      rfl

/-- A `':'`-free string is a prefix of `a ++ ':' :: w` exactly when it
is a prefix of `a`. -/
theorem prefix_append_colon {v a w : GStr} (hv : ':' ∉ v) :
    v <+: a ++ ':' :: w ↔ v <+: a := by
  constructor
  · rintro ⟨t, ht⟩
    by_cases hle : v.length ≤ a.length
    · have h1 := congrArg (List.take v.length) ht
      rw [List.take_left, List.take_append_of_le_length hle] at h1
      rw [h1]
      exact List.take_prefix _ _
    · exfalso
      push_neg at hle
      have h1 := congrArg (List.take a.length) ht
      rw [List.take_append_of_le_length (le_of_lt hle), List.take_left] at h1
      have hsplit := List.take_append_drop a.length v
      rw [h1] at hsplit
      rw [← hsplit, List.append_assoc] at ht
      have h2 := List.append_cancel_left ht
      cases hd : v.drop a.length with
      | nil =>
        have := congrArg List.length hd
        simp at this
        omega
      | cons c cs =>
        rw [hd, List.cons_append] at h2
        obtain ⟨hc, -⟩ := List.cons.inj h2
        refine hv ?_
        rw [← hc]
        exact List.drop_subset _ _ (by rw [hd]; exact List.mem_cons_self c cs)
  · intro h
    exact h.trans (List.prefix_append _ _)

/-- Prefix comparison across a `"::"` boundary, for `':'`-free left
parts: it decomposes into equality before the boundary and prefix
after it. -/
theorem prefix_sep_pair {v f x y : GStr} (hv : ':' ∉ v) (hf : ':' ∉ f) :
    v ++ ':' :: ':' :: x <+: f ++ ':' :: ':' :: y ↔ v = f ∧ x <+: y := by
  constructor
  · rintro ⟨t, ht⟩
    rw [List.append_assoc] at ht
    simp only [List.cons_append] at ht
    obtain ⟨he, ht2⟩ := append_sep_inj hv hf ht
    exact ⟨he, ⟨t, ht2⟩⟩
  · rintro ⟨rfl, hxy⟩
    rw [List.prefix_append_right_inj, List.cons_prefix_cons,
      List.cons_prefix_cons]
    exact ⟨rfl, rfl, hxy⟩

/-- The string-prefix relation between joined keys coincides with the
component-wise relation `keyPrefixMatch`, on `':'`-free components. -/
theorem gjoin_prefix_iff : ∀ (q r : List GStr), (∀ f ∈ q, ':' ∉ f) →
    (∀ f ∈ r, ':' ∉ f) → r ≠ [] →
    (gjoin sep2 q <+: gjoin sep2 r ↔ keyPrefixMatch q r = true)
  | [], r, _, _, _ => by
    simp [gjoin, keyPrefixMatch, List.nil_prefix]
  | _ :: _, [], _, _, h => absurd rfl h
  | [v], f :: fs, hq, hr, _ => by
    cases fs with
    | nil =>
      simp [gjoin, keyPrefixMatch, List.isPrefixOf_iff_prefix]
    | cons f2 fs2 =>
      have hv := hq v (List.mem_cons_self _ _)
      have he : gjoin sep2 (f :: f2 :: fs2)
          = f ++ ':' :: ':' :: gjoin sep2 (f2 :: fs2) := by
        simp [gjoin, sep2, List.append_assoc]
      rw [show gjoin sep2 [v] = v from rfl, he, prefix_append_colon hv]
      simp [keyPrefixMatch, List.isPrefixOf_iff_prefix]
  | v :: v2 :: vs, [f], hq, hr, _ => by
    constructor
    · intro hpre
      exfalso
      have hmem : ':' ∈ gjoin sep2 (v :: v2 :: vs) := by
        simp only [gjoin, sep2, List.append_assoc, List.cons_append]
        exact List.mem_append_right _ (List.mem_cons_self _ _)
      have := hpre.subset hmem
      rw [show gjoin sep2 [f] = f from rfl] at this
      exact hr f (List.mem_cons_self _ _) this
    · intro hkm
      exfalso
      simp [keyPrefixMatch] at hkm
  | v :: v2 :: vs, f :: f2 :: fs2, hq, hr, _ => by
    have e1 : gjoin sep2 (v :: v2 :: vs)
        = v ++ ':' :: ':' :: gjoin sep2 (v2 :: vs) := by
      simp [gjoin, sep2, List.append_assoc]
    have e2 : gjoin sep2 (f :: f2 :: fs2)
        = f ++ ':' :: ':' :: gjoin sep2 (f2 :: fs2) := by
      simp [gjoin, sep2, List.append_assoc]
    rw [e1, e2,
      prefix_sep_pair (hq v (List.mem_cons_self _ _))
        (hr f (List.mem_cons_self _ _)),
      gjoin_prefix_iff (v2 :: vs) (f2 :: fs2)
        (fun x hx => hq x (List.mem_cons_of_mem _ hx))
        (fun x hx => hr x (List.mem_cons_of_mem _ hx)) (by simp)]
    simp [keyPrefixMatch]

/-- For a `':'`-free requested ptype, being a string prefix of a rule's
encoded key is being a string prefix of the rule's ptype component. -/
theorem prefix_getKey_iff {ptype : GStr} (hp : ':' ∉ ptype) (r : CasbinRule)
    (hr : r ≠ []) :
    ptype <+: CasbinRule.getKey r ↔ ptype <+: r.headD [] := by
  cases r with
  | nil => exact absurd rfl hr
  | cons p fs =>
    cases fs with
    | nil => exact Iff.rfl
    | cons f fs2 =>
      have he : CasbinRule.getKey (p :: f :: fs2)
          = p ++ ':' :: ':' :: gjoin sep2 (f :: fs2) := by
        simp [CasbinRule.getKey, gjoin, sep2, List.append_assoc]
      rw [he]
      exact prefix_append_colon hp

/-- The physical-key constructor is injective in the logical key. -/
theorem physKey_inj {pfx ns k1 k2 : GStr}
    (h : physKey pfx ns k1 = physKey pfx ns k2) : k1 = k2 := by
  simpa [physKey, List.append_cancel_left_eq] using h

/-- The delete phase of `RemoveFilteredPolicy` — deleting each
collected key in turn — removes exactly the records whose physical key
was collected. -/
theorem foldl_delete_eq_filter (pfx ns : GStr) :
    ∀ (matched : List GStr) (store : Store),
      matched.foldl
          (fun s k => s.filter (fun e => !(physKey pfx ns e.1 == k))) store
        = store.filter (fun e => !(matched.contains (physKey pfx ns e.1)))
  | [], store => by simp
  | k :: ks, store => by
    rw [List.foldl_cons, foldl_delete_eq_filter pfx ns ks _, List.filter_filter]
    apply List.filter_congr
    intro e _
    by_cases hk : physKey pfx ns e.1 = k <;>
      simp [List.contains_cons, Bool.not_or, Bool.and_comm, hk]

/-- The collected key set of a scan whose match condition depends only
on the record's key contains a live record's physical key exactly when
that record satisfies the condition. -/
theorem contains_matched_iff (pfx ns : GStr) (store : Store) (pk : GStr → Bool)
    {e : Entry} (he : e ∈ store) :
    ((store.filter (fun x => pk x.1)).map
          (fun x => physKey pfx ns x.1)).contains (physKey pfx ns e.1)
      = pk e.1 := by
  rw [Bool.eq_iff_iff]
  constructor
  · intro hc
    have hmem := List.elem_iff.1 hc
    obtain ⟨x, hx, hxe⟩ := List.mem_map.1 hmem
    obtain ⟨-, hpk⟩ := List.mem_filter.1 hx
    rwa [physKey_inj hxe] at hpk
  · intro hpk
    exact List.elem_iff.2
      (List.mem_map.2 ⟨e, List.mem_filter.2 ⟨he, hpk⟩, rfl⟩)

/-! ### Claim C3 -/

/-- C3 counterexample: the two distinct rules `["a", "b"]` and
`["a::b"]` encode to the same storage key `"a::b"` — the separator can
occur inside a field value, so the encoding is not injective on rule
identity. -/
theorem C3_counterexample :
    ([gs "a", gs "b"] : CasbinRule) ≠ [gs "a::b"] ∧
      CasbinRule.getKey [gs "a", gs "b"] = CasbinRule.getKey [gs "a::b"] := by
  decide

/-- C3 amended: on non-empty rules none of whose fields contains the
separator character `':'` (containing no full `"::"` is not enough:
`[":", "", ""]` and `["", ":", ""]` share the key `":::::"`), the
storage-key encoding `getKey` is injective: distinct rules get distinct
keys. -/
theorem getKey_inj (r1 r2 : CasbinRule) (h1 : r1 ≠ []) (h2 : r2 ≠ [])
    (hf1 : ∀ f ∈ r1, ':' ∉ f) (hf2 : ∀ f ∈ r2, ':' ∉ f)
    (h : CasbinRule.getKey r1 = CasbinRule.getKey r2) : r1 = r2 :=
  gjoin_sep2_inj h1 h2 hf1 hf2 h

/-- C3 witness: concrete rules satisfying the amended hypotheses. -/
theorem getKey_inj_witness :
    (([gs "p", gs "alice"] : CasbinRule) ≠ [] ∧
        ∀ f ∈ ([gs "p", gs "alice"] : CasbinRule), ':' ∉ f) ∧
      ([gs "p", gs "alice"] : CasbinRule) = [gs "p", gs "alice"] :=
  ⟨by decide,
   getKey_inj [gs "p", gs "alice"] [gs "p", gs "alice"] (by decide) (by decide)
     (by decide) (by decide) rfl⟩

/-! ### Claim C1 -/

/-- Execution shape of the `fieldIndex = 0` branch: the surviving
records are exactly those whose physical key does not extend the
physical scan prefix built from `ptype` and the filter values. -/
theorem removeFilteredPolicy_zero_shape (pfx ns : GStr) (store : Store)
    (sec ptype : GStr) (fv : List GStr) :
    removeFilteredPolicy pfx ns store sec ptype 0 (some fv)
      = ⟨.ok, store.filter (fun e =>
          !((physKey pfx ns (gjoin sep2 (ptype :: fv))).isPrefixOf
            (physKey pfx ns e.1)))⟩ := by
  rw [removeFilteredPolicy]
  rw [if_neg (by simp : ¬(some fv : Option (List GStr)) = none)]
  simp only [Option.getD_some]
  rw [if_true]
  change Out.mk .ok _ = _
  rw [foldl_delete_eq_filter]
  apply congrArg (Out.mk .ok)
  apply List.filter_congr
  intro e he
  congr 1
  exact contains_matched_iff pfx ns store
    (fun k => (physKey pfx ns (gjoin sep2 (ptype :: fv))).isPrefixOf
      (physKey pfx ns k)) he

/-- C1 counterexample: `RemoveFilteredPolicy(sec, "p", 0, "subj-a")`
deletes the stored rule `["p", "subj-ab", "get"]` even though its
first field is `"subj-ab"`, not `"subj-a"` — the prefix seek matches
raw bytes, not whole fields, so the claim's "exactly those whose
leading fields equal fieldValues" fails. -/
theorem C1_counterexample :
    removeFilteredPolicy (gs "0") (gs "ns")
        [(CasbinRule.getKey [gs "p", gs "subj-ab", gs "get"],
          [gs "p", gs "subj-ab", gs "get"])]
        (gs "p") (gs "p") 0 (some [gs "subj-a"]) = ⟨.ok, []⟩ ∧
      c1ClaimMatch (gs "p") [gs "subj-a"]
        (CasbinRule.getKey [gs "p", gs "subj-ab", gs "get"],
          [gs "p", gs "subj-ab", gs "get"]) = false := by
  decide

/-- C1 amended: on a well-formed store and `':'`-free arguments,
`RemoveFilteredPolicy` with `fieldIndex = 0` removes exactly the
stored rules matching `keyPrefixMatch (ptype :: fieldValues)`: the
ptype and all filter values except the last must equal the rule's
leading components, while the last filter value need only be a string
prefix of the corresponding component. -/
theorem removeFilteredPolicy_prefix_exact (pfx ns : GStr) (store : Store)
    (sec ptype : GStr) (fv : List GStr) (hwf : WellFormed store)
    (hp : ':' ∉ ptype) (hfv : ∀ v ∈ fv, ':' ∉ v) :
    removeFilteredPolicy pfx ns store sec ptype 0 (some fv)
      = ⟨.ok, store.filter (fun e => !(keyPrefixMatch (ptype :: fv) e.2))⟩ := by
  rw [removeFilteredPolicy_zero_shape]
  apply congrArg (Out.mk .ok)
  apply List.filter_congr
  intro e he
  obtain ⟨hkey, hne, hflds⟩ := hwf e he
  congr 1
  rw [Bool.eq_iff_iff, List.isPrefixOf_iff_prefix]
  rw [show physKey pfx ns (gjoin sep2 (ptype :: fv))
      = (pfx ++ ns) ++ gjoin sep2 (ptype :: fv) from rfl,
    show physKey pfx ns e.1 = (pfx ++ ns) ++ e.1 from rfl,
    List.prefix_append_right_inj, hkey, CasbinRule.getKey]
  exact gjoin_prefix_iff (ptype :: fv) e.2
    (by
      intro f hf
      rcases List.mem_cons.1 hf with h | h
      · rwa [h]
      · exact hfv f h)
    hflds hne

/-- C1 witness: a concrete two-rule store where the alice rule is
removed and the bob rule survives. -/
theorem removeFilteredPolicy_prefix_exact_witness :
    (WellFormed
        [(CasbinRule.getKey [gs "p", gs "alice", gs "data1"],
          [gs "p", gs "alice", gs "data1"]),
         (CasbinRule.getKey [gs "p", gs "bob", gs "data2"],
          [gs "p", gs "bob", gs "data2"])] ∧
      ':' ∉ gs "p" ∧ ∀ v ∈ [gs "alice"], ':' ∉ v) ∧
      removeFilteredPolicy (gs "0") (gs "ns")
          [(CasbinRule.getKey [gs "p", gs "alice", gs "data1"],
            [gs "p", gs "alice", gs "data1"]),
           (CasbinRule.getKey [gs "p", gs "bob", gs "data2"],
            [gs "p", gs "bob", gs "data2"])]
          (gs "p") (gs "p") 0 (some [gs "alice"])
        = ⟨.ok, List.filter (fun e => !(keyPrefixMatch (gs "p" :: [gs "alice"]) e.2))
            [(CasbinRule.getKey [gs "p", gs "alice", gs "data1"],
              [gs "p", gs "alice", gs "data1"]),
             (CasbinRule.getKey [gs "p", gs "bob", gs "data2"],
              [gs "p", gs "bob", gs "data2"])]⟩ :=
  ⟨⟨by decide, by decide, by decide⟩,
   removeFilteredPolicy_prefix_exact (gs "0") (gs "ns") _ (gs "p") (gs "p")
     [gs "alice"] (by decide) (by decide) (by decide)⟩

/-! ### Claim C2 -/

/-- Execution shape of the `fieldIndex ≥ 1` branch: the surviving
records are exactly those failing the scan's conjunction of physical
ptype-prefix check, substring containment and positional field
comparison on the namespace-stripped, `"::"`-split key. -/
theorem removeFilteredPolicy_pos_shape (pfx ns : GStr) (store : Store)
    (sec ptype : GStr) (fieldIndex : Int) (fv : List GStr)
    (h0 : ¬fieldIndex = 0) (h1 : fieldIndex > -1) (hfv : fv ≠ []) :
    removeFilteredPolicy pfx ns store sec ptype fieldIndex (some fv)
      = ⟨.ok, store.filter (fun e =>
          !((pfx ++ ns ++ ptype).isPrefixOf (physKey pfx ns e.1) &&
            (gcontains (physKey pfx ns e.1) (gjoin sep2 fv) &&
              (if fieldIndex + 1
                  < ((splitSep ((physKey pfx ns e.1).drop ns.length)).length : Int)
                then (splitSep ((physKey pfx ns e.1).drop ns.length)).getD
                    (fieldIndex + 1).toNat [] == fv.headD []
                else false))))⟩ := by
  rw [removeFilteredPolicy]
  rw [if_neg (by simp : ¬(some fv : Option (List GStr)) = none)]
  simp only [Option.getD_some]
  rw [if_neg h0, if_pos h1, if_neg (fun hand => hfv hand.1)]
  change Out.mk .ok _ = _
  rw [foldl_delete_eq_filter]
  apply congrArg (Out.mk .ok)
  apply List.filter_congr
  intro e he
  congr 1
  exact contains_matched_iff pfx ns store
    (fun k => (pfx ++ ns ++ ptype).isPrefixOf (physKey pfx ns k) &&
      (gcontains (physKey pfx ns k) (gjoin sep2 fv) &&
        (if fieldIndex + 1
            < ((splitSep ((physKey pfx ns k).drop ns.length)).length : Int)
          then (splitSep ((physKey pfx ns k).drop ns.length)).getD
              (fieldIndex + 1).toNat [] == fv.headD []
          else false))) he

/-- C2 counterexample: the stored rule `["g", "a", "x"]` has field
`"x"` at position 1 and its key contains the joined filter `"x"`, so
the claim says `RemoveFilteredPolicy(sec, "p", 1, "x")` deletes it;
the code leaves it untouched because the scan is restricted to keys
whose physical prefix extends the requested ptype `"p"`. -/
theorem C2_counterexample :
    removeFilteredPolicy (gs "0") (gs "ns")
        [(CasbinRule.getKey [gs "g", gs "a", gs "x"], [gs "g", gs "a", gs "x"])]
        (gs "p") (gs "p") 1 (some [gs "x"])
      = ⟨.ok, [(CasbinRule.getKey [gs "g", gs "a", gs "x"],
          [gs "g", gs "a", gs "x"])]⟩ ∧
      c2ClaimMatch 1 [gs "x"]
        (CasbinRule.getKey [gs "g", gs "a", gs "x"], [gs "g", gs "a", gs "x"])
        = true := by
  decide

/-- C2 amended: on a well-formed store with `':'`-free prefix,
namespace and ptype, and a *non-empty* `fieldValues` list (the scope
of the claim; an empty non-nil list instead panics on
`fieldValues[0]`), the `fieldIndex ≥ 1` branch removes exactly the
stored rules whose ptype component *starts with* the requested ptype,
whose physical key contains the joined filter values as a substring
and whose field at position `fieldIndex` equals the first filter
value; rules of other ptypes are untouched even if their fields
match. -/
theorem removeFilteredPolicy_scan_exact (pfx ns : GStr) (store : Store)
    (sec ptype : GStr) (fieldIndex : Int) (fv : List GStr)
    (hwf : WellFormed store) (hpfx : ':' ∉ pfx) (hns : ':' ∉ ns)
    (hp : ':' ∉ ptype) (hfi : 1 ≤ fieldIndex) (hfv : fv ≠ []) :
    removeFilteredPolicy pfx ns store sec ptype fieldIndex (some fv)
      = ⟨.ok, store.filter (fun e =>
          !(fieldHit pfx ns ptype fieldIndex.toNat fv e))⟩ := by
  rw [removeFilteredPolicy_pos_shape pfx ns store sec ptype fieldIndex fv
    (by omega) (by omega) hfv]
  apply congrArg (Out.mk .ok)
  apply List.filter_congr
  intro e he
  obtain ⟨hkey, hne, hflds⟩ := hwf e he
  congr 1
  have hjunk : ':' ∉ (pfx ++ ns).drop ns.length := fun hm =>
    (List.mem_append.1 (List.drop_subset _ _ hm)).elim hpfx hns
  have hdrop : (physKey pfx ns e.1).drop ns.length
      = ((pfx ++ ns).drop ns.length) ++ CasbinRule.getKey e.2 := by
    rw [show physKey pfx ns e.1 = (pfx ++ ns) ++ e.1 from rfl,
      List.drop_append_of_le_length (by simp), hkey]
  have hvals : splitSep ((physKey pfx ns e.1).drop ns.length)
      = (((pfx ++ ns).drop ns.length) ++ e.2.headD []) :: e.2.tail := by
    rw [hdrop, splitSep_junk_getKey hjunk hne hflds]
  have hpre : (pfx ++ ns ++ ptype).isPrefixOf (physKey pfx ns e.1)
      = ptype.isPrefixOf (e.2.headD []) := by
    rw [Bool.eq_iff_iff, List.isPrefixOf_iff_prefix, List.isPrefixOf_iff_prefix,
      show physKey pfx ns e.1 = (pfx ++ ns) ++ e.1 from rfl,
      show pfx ++ ns ++ ptype = (pfx ++ ns) ++ ptype from rfl,
      List.prefix_append_right_inj, hkey]
    exact prefix_getKey_iff hp e.2 hne
  have hpos : (if fieldIndex + 1
      < ((splitSep ((physKey pfx ns e.1).drop ns.length)).length : Int)
      then (splitSep ((physKey pfx ns e.1).drop ns.length)).getD
          (fieldIndex + 1).toNat [] == fv.headD []
      else false)
      = (decide (fieldIndex.toNat < e.2.tail.length) &&
          (e.2.tail.getD fieldIndex.toNat [] == fv.headD [])) := by
    rw [hvals]
    by_cases hlt : fieldIndex.toNat < e.2.tail.length
    · rw [if_pos (by simp only [List.length_cons]; omega),
        show (fieldIndex + 1).toNat = fieldIndex.toNat + 1 by omega,
        List.getD_cons_succ, decide_eq_true hlt, Bool.true_and]
    · rw [if_neg (by simp only [List.length_cons]; omega),
        decide_eq_false hlt, Bool.false_and]
  rw [fieldHit, hpre, hpos]
  simp [Bool.and_assoc]

/-- C2 witness: a two-rule store where the rule with `"x"` at field
position 1 is removed and the other survives. -/
theorem removeFilteredPolicy_scan_exact_witness :
    (WellFormed
        [(CasbinRule.getKey [gs "p", gs "a", gs "x"], [gs "p", gs "a", gs "x"]),
         (CasbinRule.getKey [gs "p", gs "b", gs "y"], [gs "p", gs "b", gs "y"])] ∧
      ':' ∉ gs "0" ∧ ':' ∉ gs "ns" ∧ ':' ∉ gs "p" ∧ (1 : Int) ≤ 1 ∧
      ([gs "x"] : List GStr) ≠ []) ∧
      removeFilteredPolicy (gs "0") (gs "ns")
          [(CasbinRule.getKey [gs "p", gs "a", gs "x"], [gs "p", gs "a", gs "x"]),
           (CasbinRule.getKey [gs "p", gs "b", gs "y"], [gs "p", gs "b", gs "y"])]
          (gs "p") (gs "p") 1 (some [gs "x"])
        = ⟨.ok, List.filter (fun e =>
            !(fieldHit (gs "0") (gs "ns") (gs "p") (1 : Int).toNat [gs "x"] e))
            [(CasbinRule.getKey [gs "p", gs "a", gs "x"], [gs "p", gs "a", gs "x"]),
             (CasbinRule.getKey [gs "p", gs "b", gs "y"], [gs "p", gs "b", gs "y"])]⟩ :=
  ⟨⟨by decide, by decide, by decide, by decide, by decide, by decide⟩,
   removeFilteredPolicy_scan_exact (gs "0") (gs "ns") _ (gs "p") (gs "p") 1
     [gs "x"] (by decide) (by decide) (by decide) (by decide) (by decide)
     (by decide)⟩

/-! ### Claim C6 -/

/-- C6: for every model argument, `SavePolicy` returns the explicit
"not supported: must use auto-save with this adapter" error — never a
silent no-op success — and leaves the persistent store unchanged. -/
theorem SavePolicy_unsupported (store : Store) (m : PModel) :
    SavePolicy store m
      = ⟨.err (gs "not supported: must use auto-save with this adapter"),
         store⟩ :=
  rfl

/-! ### Claim C4 -/

/-- C4 counterexample: `UpdateFilteredPolicies` does not return an
error value at all — at this concrete input it panics with the message
"implement" (a crash), contradicting the claim that every input yields
a stable not-implemented error return. -/
theorem C4_counterexample :
    UpdateFilteredPolicies [(CasbinRule.getKey [gs "p", gs "a"],
        [gs "p", gs "a"])] (gs "p") (gs "p") [[gs "b"]] 0
        (some [gs "a"])
      = ⟨.panicked (gs "implement"),
         [(CasbinRule.getKey [gs "p", gs "a"], [gs "p", gs "a"])]⟩ :=
  rfl

/-- C4 amended: for every input, `UpdateFilteredPolicies` panics with
the message "implement" — a crash, not an error return — and, since it
opens no transaction, the store is untouched. -/
theorem UpdateFilteredPolicies_panics (store : Store) (sec ptype : GStr)
    (newPolicies : List (List GStr)) (fieldIndex : Int)
    (fieldValues : Option (List GStr)) :
    UpdateFilteredPolicies store sec ptype newPolicies fieldIndex fieldValues
      = ⟨.panicked (gs "implement"), store⟩ :=
  rfl

/-! ### Claim C5 -/

/-- C5 counterexample: a call of `RemoveFilteredPolicy` whose
`fieldValues` list is empty but non-nil (Go `[]string{}...`) is not
rejected: it succeeds and deletes a stored record (here the whole
ptype-"p" range, i.e. the rule `p::a`), contradicting the claim that
every empty `fieldValues` is rejected with no deletion. -/
theorem C5_counterexample :
    removeFilteredPolicy (gs "0") (gs "ns")
        [(CasbinRule.getKey [gs "p", gs "a"], [gs "p", gs "a"])]
        (gs "p") (gs "p") 0 (some [])
      = ⟨.ok, []⟩ := by
  decide

/-- The only code path that reads `fieldValues[0]` is the
`fieldIndex ≥ 1` scan: there, an empty non-nil slice panics with Go's
index-out-of-range runtime error as soon as a scanned record passes
the containment and length guards — here the stored rule
`p::a::x`. -/
theorem removeFilteredPolicy_empty_scan_panics :
    removeFilteredPolicy (gs "0") (gs "ns")
        [(CasbinRule.getKey [gs "p", gs "a", gs "x"], [gs "p", gs "a", gs "x"])]
        (gs "p") (gs "p") 1 (some [])
      = ⟨.panicked (gs "runtime error: index out of range [0] with length 0"),
         [(CasbinRule.getKey [gs "p", gs "a", gs "x"],
           [gs "p", gs "a", gs "x"])]⟩ := by
  decide

/-- C5 amended: the invalid-argument rejection tests the Go `nil`
slice, not emptiness: a call with nil `fieldValues` (a variadic call
passing no values) returns the "empty filed values" error and deletes
nothing, while a call with a non-nil `fieldValues` slice — even an
empty one — is never rejected with that error; in particular with
`fieldIndex = 0` an empty non-nil slice proceeds normally (and its
prefix scan degenerates to the whole ptype range, deleting records, as
the counterexample shows). -/
theorem removeFilteredPolicy_nil_check (pfx ns : GStr) (store : Store)
    (sec ptype : GStr) (fieldIndex : Int) :
    removeFilteredPolicy pfx ns store sec ptype fieldIndex none
        = ⟨.err (gs "empty filed values"), store⟩ ∧
      ∀ fv : List GStr,
        (removeFilteredPolicy pfx ns store sec ptype 0 (some fv)).res
          = .ok := by
  refine ⟨rfl, fun fv => ?_⟩
  rw [removeFilteredPolicy_zero_shape]

/-! ### Claim C9 -/

/-- Folding an accumulator-append step over a list collects the
per-element contributions after the initial accumulator. -/
theorem foldl_append_toList {α : Type} (f : α → Option PEvent) :
    ∀ (l : List α) (m : PModel),
      l.foldl (fun acc x => acc ++ (f x).toList) m = m ++ l.filterMap f
  | [], m => by simp
  | x :: xs, m => by
    rw [List.foldl_cons, foldl_append_toList f xs _]
    cases hf : f x <;> simp [hf]

/-- Processing one policy line appends that line's row, if any. -/
theorem loadCsvPolicyLine_event (l : GStr) (acc : PModel) :
    loadCsvPolicyLine l acc = acc ++ (lineEvent l).toList := by
  rw [loadCsvPolicyLine, lineEvent]
  split
  · simp
  · simp

/-- C9: `LoadPolicy` appends rules to the model in two phases in this
order — first every rule parsed from the inline seed-policy text
(split on newlines, blank and `#` lines ignored, remaining lines split
on commas), then every record persisted in the bucket, decoded from
its stored value — with no deduplication: the final model is exactly
the initial model followed by the seed rows followed by the bucket
rows, so a rule present in both sources appears twice. -/
theorem LoadPolicy_two_phases (builtinPolicy : GStr) (store : Store)
    (m : PModel) :
    LoadPolicy builtinPolicy store m
      = m ++ seedRules builtinPolicy ++ bucketRules store := by
  rw [LoadPolicy]
  have hload : ∀ (r : CasbinRule) (acc : PModel),
      loadPolicy r acc = acc ++ (lineEvent (gjoin [','] r)).toList := by
    intro r acc
    rw [loadPolicy, loadPolicyLine, loadCsvPolicyLine_event]
  have h2 : ∀ (s : Store) (m1 : PModel),
      s.foldl (fun acc e => loadPolicy e.2 acc) m1 = m1 ++ bucketRules s := by
    intro s m1
    have hfg : s.foldl (fun acc e => loadPolicy e.2 acc) m1
        = s.foldl (fun acc e => acc ++ (lineEvent (gjoin [','] e.2)).toList)
          m1 := by
      congr 1
      funext acc e
      exact hload e.2 acc
    rw [hfg, foldl_append_toList (fun e => lineEvent (gjoin [','] e.2)) s m1]
    rfl
  by_cases hb : builtinPolicy = []
  · rw [if_pos hb, h2, hb]
    rw [show seedRules [] = [] by decide, List.append_nil]
  · rw [if_neg hb]
    have hfg : (List.splitOn '\n' builtinPolicy).foldl
        (fun acc l => loadCsvPolicyLine (trimSpace l) acc) m
        = (List.splitOn '\n' builtinPolicy).foldl
          (fun acc l => acc ++ (lineEvent (trimSpace l)).toList) m := by
      congr 1
      funext acc l
      exact loadCsvPolicyLine_event (trimSpace l) acc
    rw [hfg, foldl_append_toList (fun l => lineEvent (trimSpace l)), h2]
    rfl

/-! ### Claim C7 -/

/-- C7: `UpdatePolicies` on rule lists of differing lengths returns the
`InvalidRulesLen` ("invalid rule len") error and performs no mutation:
every stored record is exactly as before the call. -/
theorem UpdatePolicies_length_mismatch (store : Store) (sec ptype : GStr)
    (oldRules newRules : List (List GStr))
    (h : oldRules.length ≠ newRules.length) :
    UpdatePolicies store sec ptype oldRules newRules
      = ⟨.err (gs "invalid rule len"), store⟩ := by
  simp [UpdatePolicies, h]

/-- C7 witness: a concrete length-mismatched call. -/
theorem UpdatePolicies_length_mismatch_witness :
    ([[gs "a", gs "b"]] : List (List GStr)).length
        ≠ ([] : List (List GStr)).length ∧
      UpdatePolicies [(CasbinRule.getKey [gs "p", gs "x"], [gs "p", gs "x"])]
          (gs "p") (gs "p") [[gs "a", gs "b"]] []
        = ⟨.err (gs "invalid rule len"),
           [(CasbinRule.getKey [gs "p", gs "x"], [gs "p", gs "x"])]⟩ :=
  ⟨by decide,
   UpdatePolicies_length_mismatch _ (gs "p") (gs "p") _ _ (by decide)⟩

/-! ### Claim C8 -/

/-- C8: when the old rule's encoded key is absent from the bucket,
`UpdatePolicy` returns success and leaves every record unchanged — in
particular the new rule is not inserted. -/
theorem UpdatePolicy_absent_old_rule (store : Store) (sec ptype : GStr)
    (oldRule newPolicy : List GStr)
    (h : bucketExist store
      (CasbinRule.getKey (convertRule ptype oldRule)) = false) :
    UpdatePolicy store sec ptype oldRule newPolicy = ⟨.ok, store⟩ := by
  simp [UpdatePolicy, h]

/-- C8 witness: updating `["alice","data1","read"]` to
`["alice","data1","write"]` when only bob's rule is stored leaves the
bucket unchanged and returns success. -/
theorem UpdatePolicy_absent_old_rule_witness :
    bucketExist [(CasbinRule.getKey [gs "p", gs "bob", gs "data1", gs "write"],
          [gs "p", gs "bob", gs "data1", gs "write"])]
        (CasbinRule.getKey (convertRule (gs "p")
          [gs "alice", gs "data1", gs "read"])) = false ∧
      UpdatePolicy [(CasbinRule.getKey [gs "p", gs "bob", gs "data1", gs "write"],
            [gs "p", gs "bob", gs "data1", gs "write"])]
          (gs "p") (gs "p") [gs "alice", gs "data1", gs "read"]
          [gs "alice", gs "data1", gs "write"]
        = ⟨.ok, [(CasbinRule.getKey [gs "p", gs "bob", gs "data1", gs "write"],
            [gs "p", gs "bob", gs "data1", gs "write"])]⟩ :=
  ⟨by decide, UpdatePolicy_absent_old_rule _ (gs "p") (gs "p") _ _ (by decide)⟩

/-! ### Claim C10 -/

/-- C10: for every `fieldIndex < 0` and non-nil `fieldValues`,
`RemoveFilteredPolicy` returns success, runs neither scan branch,
deletes nothing and leaves the store unchanged — the out-of-range index
is silently accepted. -/
theorem removeFilteredPolicy_negative_index (pfx ns : GStr) (store : Store)
    (sec ptype : GStr) (fieldIndex : Int) (hneg : fieldIndex < 0)
    (fv : List GStr) :
    removeFilteredPolicy pfx ns store sec ptype fieldIndex (some fv)
      = ⟨.ok, store⟩ := by
  have h0 : ¬ fieldIndex = 0 := by omega
  have h1 : ¬ fieldIndex > -1 := by omega
  simp [removeFilteredPolicy, h0, h1]

/-- C10 witness: `fieldIndex = -1` with a rule that any scan branch
would have matched leaves the store untouched. -/
theorem removeFilteredPolicy_negative_index_witness :
    (-1 : Int) < 0 ∧
      removeFilteredPolicy (gs "0") (gs "ns")
          [(CasbinRule.getKey [gs "p", gs "a"], [gs "p", gs "a"])]
          (gs "p") (gs "p") (-1) (some [gs "a"])
        = ⟨.ok, [(CasbinRule.getKey [gs "p", gs "a"], [gs "p", gs "a"])]⟩ :=
  ⟨by decide,
   removeFilteredPolicy_negative_index (gs "0") (gs "ns") _ (gs "p") (gs "p")
     (-1) (by decide) [gs "a"]⟩

end CasbinMesh
